import Mathlib

/-!
Verification of the `gita-reels` scripts (`scripts/pick_today_quote.py`,
`scripts/make_caption.py`, `scripts/make_reel_github_linux.py`,
`scripts/make_reel copy.py`) against their natural-language specification.

Shallow embedding conventions:
* Python strings are modelled as `List Char`; `str.strip()`, `str.split()` and
  `" ".join` are re-implemented faithfully below.
* Python's real arithmetic is modelled over `ℚ`; `int(...)` on a non-negative
  value is `Int.floor`, `//` is `Int.fdiv`.
* Library calls are oracles: JSON parsing yields an association list,
  `draw.textbbox` is an arbitrary width-measuring function,
  `random.sample` receives the shuffled pool as a parameter,
  `random.choice` receives a choice function, and the filesystem is an
  explicit `Option`/`Bool` parameter.
-/

namespace GitaReels

/-- `clamp` from the reel scripts: `max(a, min(b, x))` with defaults `a=0, b=1`. -/
def clamp (x : ℚ) : ℚ := max 0 (min 1 x)

/-- `ease_out` from the reel scripts: `1 - (1 - t) * (1 - t)`. -/
def ease_out (t : ℚ) : ℚ := 1 - (1 - t) * (1 - t)

/-- `fade_alpha` from the reel scripts: `ease_out(clamp((t - start) / duration))`. -/
def fade_alpha (t start duration : ℚ) : ℚ := ease_out (clamp ((t - start) / duration))

lemma clamp_nonneg (x : ℚ) : 0 ≤ clamp x := le_max_left 0 _

lemma clamp_le_one (x : ℚ) : clamp x ≤ 1 := max_le (by norm_num) (min_le_left 1 x)

lemma clamp_of_nonpos {x : ℚ} (h : x ≤ 0) : clamp x = 0 := by
  have h1 : min 1 x = x := min_eq_right (h.trans (by norm_num))
  rw [clamp, h1, max_eq_left h]

lemma clamp_of_one_le {x : ℚ} (h : 1 ≤ x) : clamp x = 1 := by
  rw [clamp, min_eq_left h]
  norm_num

lemma clamp_mono {x y : ℚ} (h : x ≤ y) : clamp x ≤ clamp y :=
  max_le_max le_rfl (min_le_min le_rfl h)

lemma ease_out_mono {x y : ℚ} (hx : 0 ≤ x) (h : x ≤ y) (hy : y ≤ 1) :
    ease_out x ≤ ease_out y := by
  unfold ease_out
  nlinarith

lemma ease_out_mem {x : ℚ} (hx : 0 ≤ x) (hx1 : x ≤ 1) :
    0 ≤ ease_out x ∧ ease_out x ≤ 1 := by
  constructor <;> · unfold ease_out; nlinarith

/-- Claim C4: for every start value and every duration `d > 0`, `fade_alpha t start d`
lies in `[0, 1]`, is `0` for all `t ≤ start`, is `1` for all `t ≥ start + d`, and is
monotonically nondecreasing in `t`. -/
theorem fade_alpha_well_behaved (s d : ℚ) (hd : 0 < d) :
    (∀ t, 0 ≤ fade_alpha t s d ∧ fade_alpha t s d ≤ 1) ∧
    (∀ t, t ≤ s → fade_alpha t s d = 0) ∧
    (∀ t, s + d ≤ t → fade_alpha t s d = 1) ∧
    (∀ t u, t ≤ u → fade_alpha t s d ≤ fade_alpha u s d) := by
  refine ⟨fun t => ?_, fun t ht => ?_, fun t ht => ?_, fun t u htu => ?_⟩
  · exact ease_out_mem (clamp_nonneg _) (clamp_le_one _)
  · have hx : (t - s) / d ≤ 0 :=
      div_nonpos_iff.mpr (Or.inr ⟨by linarith, hd.le⟩)
    rw [fade_alpha, clamp_of_nonpos hx]
    unfold ease_out
    ring
  · have hx : 1 ≤ (t - s) / d := (one_le_div hd).mpr (by linarith)
    rw [fade_alpha, clamp_of_one_le hx]
    unfold ease_out
    ring
  · have hx : (t - s) / d ≤ (u - s) / d := by
      rw [div_le_div_right hd]
      linarith
    exact ease_out_mono (clamp_nonneg _) (clamp_mono hx) (clamp_le_one _)

/-- Witness for C4 at `start = 0`, `d = 1`. -/
theorem fade_alpha_well_behaved_witness :
    (0 : ℚ) < 1 ∧
    ((∀ t, 0 ≤ fade_alpha t 0 1 ∧ fade_alpha t 0 1 ≤ 1) ∧
     (∀ t, t ≤ 0 → fade_alpha t 0 1 = 0) ∧
     (∀ t, (0 : ℚ) + 1 ≤ t → fade_alpha t 0 1 = 1) ∧
     (∀ t u, t ≤ u → fade_alpha t 0 1 ≤ fade_alpha u 0 1)) :=
  ⟨by norm_num, fade_alpha_well_behaved 0 1 (by norm_num)⟩

/-! ### Frame geometry and clip constants (`make_reel_github_linux.py` lines 21-23) -/

def W : ℕ := 1080

def H : ℕ := 1920

def DURATION : ℕ := 12

def FPS : ℕ := 30

/-- The data `main` passes to `VideoClip(make_frame, duration=DURATION)` and
`write_videofile(..., fps=FPS, ...)`. -/
structure ClipSpec where
  duration : ℕ
  fps : ℕ

/-- The clip built in `main` of `make_reel_github_linux.py`. -/
def reelClip : ClipSpec := { duration := DURATION, fps := FPS }

/-- Library contract of `write_videofile`: the frame function is sampled at the
times `k / fps` for `0 ≤ k < duration * fps`. -/
def sampleTimes (c : ClipSpec) : List ℚ :=
  (List.range (c.duration * c.fps)).map (fun k : ℕ => (k : ℚ) / (c.fps : ℚ))

/-- Claim C6: the clip passed to the encoder has duration 12 seconds, is written at
30 frames per second, and every sampled frame time lies in `[0, 12]`. -/
theorem reel_clip_duration_fps :
    reelClip.duration = 12 ∧ reelClip.fps = 30 ∧
    ∀ t ∈ sampleTimes reelClip, 0 ≤ t ∧ t ≤ 12 := by
  refine ⟨rfl, rfl, fun t ht => ?_⟩
  rw [sampleTimes] at ht
  obtain ⟨k, hk, rfl⟩ := List.mem_map.mp ht
  have hk360 : k < 360 := by simpa [reelClip, DURATION, FPS] using List.mem_range.mp hk
  have hkq : (k : ℚ) < 360 := by exact_mod_cast hk360
  have hfps : ((reelClip.fps : ℕ) : ℚ) = 30 := by norm_num [reelClip, FPS]
  rw [hfps]
  constructor
  · exact div_nonneg (Nat.cast_nonneg k) (by norm_num)
  · rw [div_le_iff₀ (by norm_num : (0 : ℚ) < 30)]
    linarith

/-! ### `load_background` geometry (`make_reel_github_linux.py` lines 99-121,
`make_reel copy.py` lines 99-122; both variants compute the same sizes) -/

/-- The `(new_w, new_h)` pair `load_background` computes for a `w × h` source
image: the comparison `img_ratio > target_ratio` picks the branch, and
`int(...)` on the (nonnegative) products is `Int.floor`. -/
def resizeDims (w h : ℕ) : ℤ × ℤ :=
  let imgRatio : ℚ := (w : ℚ) / (h : ℚ)
  let targetRatio : ℚ := (W : ℚ) / (H : ℚ)
  if targetRatio < imgRatio then (⌊(H : ℚ) * imgRatio⌋, (H : ℤ))
  else ((W : ℤ), ⌊(W : ℚ) / imgRatio⌋)

structure CropBox where
  left : ℤ
  top : ℤ
  right : ℤ
  bottom : ℤ

/-- The centered crop box `(left, top, left + W, top + H)` built by
`load_background`; Python `//` is `Int.fdiv`. -/
def cropRect (nw nh : ℤ) : CropBox :=
  let l := Int.fdiv (nw - (W : ℤ)) 2
  let t := Int.fdiv (nh - (H : ℤ)) 2
  { left := l, top := t, right := l + (W : ℤ), bottom := t + (H : ℤ) }

/-- The size of the image `load_background` returns: PIL's `crop` yields an
image of exactly the box's width and height. -/
def load_background_size (w h : ℕ) : ℤ × ℤ :=
  let nwh := resizeDims w h
  let box := cropRect nwh.1 nwh.2
  (box.right - box.left, box.bottom - box.top)

lemma resizeDims_ge (w h : ℕ) (hw : 0 < w) (hh : 0 < h) :
    (W : ℤ) ≤ (resizeDims w h).1 ∧ (H : ℤ) ≤ (resizeDims w h).2 := by
  have hwq : (0 : ℚ) < (w : ℚ) := by exact_mod_cast hw
  have hhq : (0 : ℚ) < (h : ℚ) := by exact_mod_cast hh
  have hr : (0 : ℚ) < (w : ℚ) / (h : ℚ) := div_pos hwq hhq
  rw [resizeDims]
  split_ifs with hcmp
  · constructor
    · simp only
      rw [show ((W : ℕ) : ℤ) = 1080 by norm_num [W], Int.le_floor]
      have h916 : (9 : ℚ) / 16 < (w : ℚ) / (h : ℚ) := by
        have : ((W : ℕ) : ℚ) / ((H : ℕ) : ℚ) = 9 / 16 := by norm_num [W, H]
        linarith [this ▸ hcmp]
      push_cast
      norm_num [H]
      linarith
    · simp only
      norm_num [W, H]
  · constructor
    · simp only
      norm_num [W]
    · simp only
      rw [show ((H : ℕ) : ℤ) = 1920 by norm_num [H], Int.le_floor]
      push_cast
      have h916 : (w : ℚ) / (h : ℚ) ≤ 9 / 16 := by
        have heq : ((W : ℕ) : ℚ) / ((H : ℕ) : ℚ) = 9 / 16 := by norm_num [W, H]
        have := not_lt.mp hcmp
        linarith [heq ▸ this]
      rw [le_div_iff₀ hr]
      norm_num [W]
      linarith

lemma cropRect_within (nw nh : ℤ) (h1 : (W : ℤ) ≤ nw) (h2 : (H : ℤ) ≤ nh) :
    0 ≤ (cropRect nw nh).left ∧ 0 ≤ (cropRect nw nh).top ∧
    (cropRect nw nh).right ≤ nw ∧ (cropRect nw nh).bottom ≤ nh := by
  have hwd : (0 : ℤ) ≤ nw - (W : ℤ) := by linarith
  have hhd : (0 : ℤ) ≤ nh - (H : ℤ) := by linarith
  have el : Int.fdiv (nw - (W : ℤ)) 2 = (nw - (W : ℤ)) / 2 :=
    Int.fdiv_eq_ediv _ (by norm_num)
  have et : Int.fdiv (nh - (H : ℤ)) 2 = (nh - (H : ℤ)) / 2 :=
    Int.fdiv_eq_ediv _ (by norm_num)
  refine ⟨?_, ?_, ?_, ?_⟩
  · exact Int.fdiv_nonneg hwd (by norm_num)
  · exact Int.fdiv_nonneg hhd (by norm_num)
  · show Int.fdiv (nw - (W : ℤ)) 2 + (W : ℤ) ≤ nw
    have := Int.ediv_le_self 2 hwd
    rw [el]
    linarith
  · show Int.fdiv (nh - (H : ℤ)) 2 + (H : ℤ) ≤ nh
    have := Int.ediv_le_self 2 hhd
    rw [et]
    linarith

/-- Claim C9: for every source image with positive dimensions, the resize branch
yields `new_w ≥ 1080` and `new_h ≥ 1920`, the centered crop box lies within the
resized image, and the returned image measures exactly 1080 × 1920. -/
theorem load_background_normalizes (w h : ℕ) (hw : 0 < w) (hh : 0 < h) :
    (W : ℤ) ≤ (resizeDims w h).1 ∧ (H : ℤ) ≤ (resizeDims w h).2 ∧
    0 ≤ (cropRect (resizeDims w h).1 (resizeDims w h).2).left ∧
    0 ≤ (cropRect (resizeDims w h).1 (resizeDims w h).2).top ∧
    (cropRect (resizeDims w h).1 (resizeDims w h).2).right ≤ (resizeDims w h).1 ∧
    (cropRect (resizeDims w h).1 (resizeDims w h).2).bottom ≤ (resizeDims w h).2 ∧
    load_background_size w h = ((W : ℤ), (H : ℤ)) := by
  obtain ⟨h1, h2⟩ := resizeDims_ge w h hw hh
  obtain ⟨c1, c2, c3, c4⟩ := cropRect_within _ _ h1 h2
  refine ⟨h1, h2, c1, c2, c3, c4, ?_⟩
  simp only [load_background_size, cropRect]
  ring_nf

/-- Witness for C9 at a 100 × 100 source image. -/
theorem load_background_normalizes_witness :
    0 < 100 ∧
    ((W : ℤ) ≤ (resizeDims 100 100).1 ∧ (H : ℤ) ≤ (resizeDims 100 100).2 ∧
     0 ≤ (cropRect (resizeDims 100 100).1 (resizeDims 100 100).2).left ∧
     0 ≤ (cropRect (resizeDims 100 100).1 (resizeDims 100 100).2).top ∧
     (cropRect (resizeDims 100 100).1 (resizeDims 100 100).2).right ≤ (resizeDims 100 100).1 ∧
     (cropRect (resizeDims 100 100).1 (resizeDims 100 100).2).bottom ≤ (resizeDims 100 100).2 ∧
     load_background_size 100 100 = ((W : ℤ), (H : ℤ))) :=
  ⟨by decide, load_background_normalizes 100 100 (by decide) (by decide)⟩

/-! ### Python string primitives over `List Char` -/

/-- The whitespace test behind Python's `str.strip()` / `str.split()`. -/
def isWS (c : Char) : Bool := c.isWhitespace

/-- Python `str.lstrip()`. -/
def pyStripFront (s : List Char) : List Char := s.dropWhile isWS

/-- Python `str.rstrip()`. -/
def pyStripBack (s : List Char) : List Char := (s.reverse.dropWhile isWS).reverse

/-- Python `str.strip()`. -/
def pyStrip (s : List Char) : List Char := pyStripBack (pyStripFront s)

/-- Helper for `pySplit`; `cur` holds the characters of the word being read,
in reverse order. -/
def pySplitAux : List Char → List Char → List (List Char)
  | [], cur => if cur = [] then [] else [cur.reverse]
  | c :: cs, cur =>
    if isWS c then
      if cur = [] then pySplitAux cs [] else cur.reverse :: pySplitAux cs []
    else pySplitAux cs (c :: cur)

/-- Python `str.split()` with no separator: split on runs of whitespace,
dropping empty pieces. -/
def pySplit (s : List Char) : List (List Char) := pySplitAux s []

/-- Python `" ".join(l)`. -/
def joinSp : List (List Char) → List Char
  | [] => []
  | [w] => w
  | w :: ws => w ++ ' ' :: joinSp ws

lemma joinSp_cons_cons (w x : List Char) (ws : List (List Char)) :
    joinSp (w :: x :: ws) = w ++ ' ' :: joinSp (x :: ws) := rfl

lemma pyStripFront_cons_of_not_ws {c : Char} (h : isWS c = false) (l : List Char) :
    pyStripFront (c :: l) = c :: l := by
  simp [pyStripFront, List.dropWhile_cons, h]

lemma pyStripBack_append_of_not_ws (l : List Char) {c : Char} (h : isWS c = false) :
    pyStripBack (l ++ [c]) = l ++ [c] := by
  simp [pyStripBack, List.dropWhile_cons, h]

lemma pyStripBack_append_ws (l : List Char) {c : Char} (h : isWS c = true) :
    pyStripBack (l ++ [c]) = pyStripBack l := by
  simp [pyStripBack, List.dropWhile_cons, h]

/-- A string that starts and ends with a non-whitespace character is unchanged
by `strip`. -/
lemma pyStrip_eq_self {a c : Char} (ha : isWS a = false) (hc : isWS c = false)
    (mid : List Char) : pyStrip (a :: (mid ++ [c])) = a :: (mid ++ [c]) := by
  rw [pyStrip, pyStripFront_cons_of_not_ws ha]
  rw [show a :: (mid ++ [c]) = (a :: mid) ++ [c] from rfl]
  exact pyStripBack_append_of_not_ws _ hc

/-! ### Quote records and the exceptions the scripts raise -/

/-- A parsed JSON object: an association list from keys to the string rendering
of their values (the scripts only ever apply `str(...)` or f-string formatting
to the values they read). -/
abbrev Rec := List (String × List Char)

/-- Dictionary lookup, `q[k]` / `k in q`. -/
def getVal (q : Rec) (k : String) : Option (List Char) :=
  (q.find? (fun p => p.1 == k)).map (fun p => p.2)

/-- `str(q.get(k, ""))`. -/
def getValD (q : Rec) (k : String) : List Char := (getVal q k).getD []

inductive PyError where
  | fileNotFound : PyError
  | valueError : PyError
  | exception : PyError
  deriving DecidableEq

/-! ### `pick_today_quote.py` -/

/-- `load_month_file` (lines 14-19): raises `FileNotFoundError` when the month
data file does not exist, otherwise returns the parse of its text (`json.loads`
is the library, modelled as the already-parsed content). -/
def load_month_file (file : Option (List Rec)) : Except PyError (List Rec) :=
  match file with
  | none => .error .fileNotFound
  | some content => .ok content

/-- `str(q.get("date", "")).strip() == today_str` from `main` (line 33). -/
def dateMatches (todayStr : List Char) (q : Rec) : Bool :=
  pyStrip (getValD q "date") == todayStr

/-- The lookup in `main`: `next((q for q in month_data if ...), None)`. -/
def findTodayQuote (monthData : List Rec) (todayStr : List Char) : Option Rec :=
  monthData.find? (dateMatches todayStr)

/-- `main` of `pick_today_quote.py` after the month file is loaded: the record
written to `today_quote.json`, or the exception raised when no date matches. -/
def pickTodayQuote (monthData : List Rec) (todayStr : List Char) : Except PyError Rec :=
  match findTodayQuote monthData todayStr with
  | some q => .ok q
  | none => .error .exception

lemma find?_eq_some_iff_first {α : Type} (p : α → Bool) (l : List α) (a : α) :
    l.find? p = some a ↔
      ∃ pre post, l = pre ++ a :: post ∧ p a = true ∧ ∀ x ∈ pre, p x = false := by
  induction l with
  | nil => simp
  | cons b bs ih =>
    cases hpb : p b with
    | true =>
      rw [List.find?_cons_of_pos _ hpb]
      constructor
      · intro h
        cases h
        exact ⟨[], bs, rfl, hpb, by simp⟩
      · rintro ⟨pre, post, heq, hpa, hpre⟩
        cases pre with
        | nil =>
          rw [List.nil_append] at heq
          cases heq
          rfl
        | cons c cs =>
          rw [List.cons_append] at heq
          cases heq
          have := hpre b (by simp)
          rw [this] at hpb
          cases hpb
    | false =>
      rw [List.find?_cons_of_neg _ (by simp [hpb]), ih]
      constructor
      · rintro ⟨pre, post, heq, hpa, hpre⟩
        refine ⟨b :: pre, post, by rw [heq, List.cons_append], hpa, ?_⟩
        intro x hx
        rcases List.mem_cons.mp hx with rfl | hx'
        · exact hpb
        · exact hpre x hx'
      · rintro ⟨pre, post, heq, hpa, hpre⟩
        cases pre with
        | nil =>
          rw [List.nil_append] at heq
          cases heq
          rw [hpa] at hpb
          cases hpb
        | cons c cs =>
          rw [List.cons_append] at heq
          cases heq
          exact ⟨cs, post, rfl, hpa, fun x hx => hpre x (List.mem_cons_of_mem _ hx)⟩

lemma pickTodayQuote_ok_iff (data : List Rec) (t : List Char) (q : Rec) :
    pickTodayQuote data t = .ok q ↔ findTodayQuote data t = some q := by
  unfold pickTodayQuote
  cases hfind : findTodayQuote data t <;> simp

lemma pickTodayQuote_error_iff (data : List Rec) (t : List Char) :
    (∃ e, pickTodayQuote data t = .error e) ↔ findTodayQuote data t = none := by
  unfold pickTodayQuote
  cases hfind : findTodayQuote data t <;> simp

/-- Claim C1: `main` of `pick_today_quote.py` outputs exactly the first record of
the month database whose stripped `date` field equals the current IST date
string, and raises an exception when no record matches. -/
theorem pick_today_quote_selects_first_match (monthData : List Rec) (todayStr : List Char) :
    (∀ q, pickTodayQuote monthData todayStr = .ok q ↔
        ∃ pre post, monthData = pre ++ q :: post ∧ dateMatches todayStr q = true ∧
          ∀ p ∈ pre, dateMatches todayStr p = false) ∧
    ((∃ e, pickTodayQuote monthData todayStr = .error e) ↔
        ∀ q ∈ monthData, dateMatches todayStr q = false) := by
  constructor
  · intro q
    rw [pickTodayQuote_ok_iff, findTodayQuote, find?_eq_some_iff_first]
  · rw [pickTodayQuote_error_iff, findTodayQuote, List.find?_eq_none]
    simp [Bool.not_eq_true]

/-! ### `make_caption.py`: `load_quote` validation -/

/-- The `required` list of `load_quote` (line 36). -/
def requiredKeys : List String := ["sanskrit", "english", "hindi", "reference"]

/-- `load_quote` of `make_caption.py` (lines 30-41): `FileNotFoundError` when
`today_quote.json` is absent; otherwise `ValueError` when some required key is
missing or blank after stripping, else the parsed record unchanged. -/
def caption_load_quote (file : Option Rec) : Except PyError Rec :=
  match file with
  | none => .error .fileNotFound
  | some q =>
    if requiredKeys.filter
        (fun k => (getVal q k).isNone || (pyStrip (getValD q k)).isEmpty) = []
    then .ok q
    else .error .valueError

lemma missingKeys_empty_iff (q : Rec) :
    requiredKeys.filter
        (fun k => (getVal q k).isNone || (pyStrip (getValD q k)).isEmpty) = [] ↔
      ∀ k ∈ requiredKeys, getVal q k ≠ none ∧ pyStrip (getValD q k) ≠ [] := by
  rw [List.filter_eq_nil_iff]
  refine forall₂_congr fun k _ => ?_
  simp [Option.isNone_iff_eq_none, List.isEmpty_iff, not_or]

/-- Claim C8: `load_quote` raises `ValueError` iff one of the four required keys
is absent or blank after stripping; with all four present and non-blank it
returns the record unchanged; `topic` is not required. -/
theorem load_quote_validates_required_keys (q : Rec) :
    (caption_load_quote (some q) = .error .valueError ↔
      ∃ k ∈ requiredKeys, getVal q k = none ∨ pyStrip (getValD q k) = []) ∧
    ((∀ k ∈ requiredKeys, getVal q k ≠ none ∧ pyStrip (getValD q k) ≠ []) →
      caption_load_quote (some q) = .ok q) ∧
    requiredKeys = ["sanskrit", "english", "hindi", "reference"] ∧
    "topic" ∉ requiredKeys := by
  have hms := missingKeys_empty_iff q
  refine ⟨?_, ?_, rfl, by decide⟩
  · show (if _ = _ then _ else Except.error PyError.valueError) = _ ↔ _
    split_ifs with hm
    · constructor
      · intro h
        exact absurd h (by simp)
      · rintro ⟨k, hk, hor⟩
        obtain ⟨h1, h2⟩ := hms.mp hm k hk
        cases hor with
        | inl h => exact absurd h h1
        | inr h => exact absurd h h2
    · constructor
      · intro _
        by_contra hne
        push_neg at hne
        exact hm (hms.mpr hne)
      · intro _
        rfl
  · intro hall
    show (if _ = _ then _ else _) = _
    rw [if_pos (hms.mpr hall)]

/-! ### Missing input files (claim C2) -/

/-- `load_background` of the reel scripts including the existence check: the
file parameter carries the image's size when the file exists. -/
def load_background (file : Option (ℕ × ℕ)) : Except PyError (ℤ × ℤ) :=
  match file with
  | none => .error .fileNotFound
  | some wh => .ok (load_background_size wh.1 wh.2)

/-- Claim C2: `load_month_file` raises `FileNotFoundError` iff the month file
does not exist and returns the parsed JSON otherwise; `load_quote` of
`make_caption.py` raises `FileNotFoundError` iff `today_quote.json` is absent;
`load_background` raises `FileNotFoundError` iff the background image is
absent; none of them falls back to a default. -/
theorem missing_files_raise :
    (∀ file : Option (List Rec),
        (load_month_file file = .error .fileNotFound ↔ file = none) ∧
        ∀ content, load_month_file (some content) = .ok content) ∧
    (∀ file : Option Rec,
        caption_load_quote file = .error .fileNotFound ↔ file = none) ∧
    (∀ file : Option (ℕ × ℕ),
        load_background file = .error .fileNotFound ↔ file = none) := by
  refine ⟨fun file => ⟨?_, fun content => rfl⟩, fun file => ?_, fun file => ?_⟩
  · cases file <;> simp [load_month_file]
  · cases file with
    | none => simp [caption_load_quote]
    | some q =>
      show (if _ = _ then _ else Except.error PyError.valueError) = _ ↔ _
      split_ifs <;> simp
  · cases file <;> simp [load_background]

/-! ### `wrap_lines` (`make_reel_github_linux.py` lines 52-66,
`make_reel copy.py` lines 45-59; the two copies are identical) -/

/-- The `for w in words` loop of `wrap_lines`; `measure` is the width oracle
standing for `draw.textbbox((0, 0), test, font=font_obj)[2]`. -/
def wrapLoop (measure : List Char → ℤ) (maxW : ℤ) :
    List (List Char) → List Char → List (List Char) → List (List Char)
  | lines, cur, [] => if cur = [] then lines else lines ++ [cur]
  | lines, cur, w :: ws =>
    if measure (pyStrip (cur ++ ' ' :: w)) ≤ maxW then
      wrapLoop measure maxW lines (pyStrip (cur ++ ' ' :: w)) ws
    else if cur = [] then wrapLoop measure maxW lines w ws
    else wrapLoop measure maxW (lines ++ [cur]) w ws

/-- `wrap_lines`: split the text into words, then greedily fill lines. -/
def wrap_lines (measure : List Char → ℤ) (maxW : ℤ) (text : List Char) :
    List (List Char) :=
  wrapLoop measure maxW [] [] (pySplit text)

/-- What `str.split()` guarantees of each word: nonempty and whitespace-free. -/
def wordOK (w : List Char) : Prop := w ≠ [] ∧ ∀ c ∈ w, isWS c = false

lemma pySplitAux_wordOK (s : List Char) : ∀ cur, (∀ c ∈ cur, isWS c = false) →
    ∀ w ∈ pySplitAux s cur, wordOK w := by
  induction s with
  | nil =>
    intro cur hcur w hw
    rw [pySplitAux] at hw
    split_ifs at hw with h
    · cases hw
    · rcases List.mem_singleton.mp hw with rfl
      refine ⟨fun hrev => h (by simpa using hrev), ?_⟩
      exact fun c hc => hcur c (List.mem_reverse.mp hc)
  | cons c cs ih =>
    intro cur hcur w hw
    rw [pySplitAux] at hw
    split_ifs at hw with h1 h2
    · exact ih [] (by simp) w hw
    · rcases List.mem_cons.mp hw with rfl | hw'
      · refine ⟨fun hrev => h2 (by simpa using hrev), ?_⟩
        exact fun d hd => hcur d (List.mem_reverse.mp hd)
      · exact ih [] (by simp) w hw'
    · refine ih (c :: cur) ?_ w hw
      intro d hd
      rcases List.mem_cons.mp hd with rfl | hd'
      · simpa using h1
      · exact hcur d hd'

lemma pySplit_wordOK (s : List Char) : ∀ w ∈ pySplit s, wordOK w :=
  pySplitAux_wordOK s [] (by simp)

lemma pySplitAux_append_word {w : List Char} (hw : ∀ c ∈ w, isWS c = false) :
    ∀ l cur, pySplitAux (w ++ l) cur = pySplitAux l (w.reverse ++ cur) := by
  induction w with
  | nil => simp
  | cons c cw ih =>
    intro l cur
    rw [List.cons_append, pySplitAux, if_neg (by simp [hw c (by simp)])]
    rw [ih (fun d hd => hw d (by simp [hd])) l (c :: cur)]
    congr 1
    simp

lemma pySplitAux_cons_space (l cur : List Char) :
    pySplitAux (' ' :: l) cur =
      if cur = [] then pySplitAux l [] else cur.reverse :: pySplitAux l [] := by
  rw [pySplitAux, if_pos]
  rfl

lemma pySplit_joinSp (ws : List (List Char)) (h : ∀ w ∈ ws, wordOK w) :
    pySplit (joinSp ws) = ws := by
  induction ws with
  | nil => rfl
  | cons w ws' ih =>
    obtain ⟨hne, hchars⟩ := h w (by simp)
    cases ws' with
    | nil =>
      show pySplitAux (joinSp [w]) [] = [w]
      rw [show joinSp [w] = w ++ [] from (List.append_nil w).symm]
      rw [pySplitAux_append_word hchars, pySplitAux, if_neg (by simpa using hne)]
      simp
    | cons x ws'' =>
      rw [joinSp_cons_cons]
      show pySplitAux (w ++ ' ' :: joinSp (x :: ws'')) [] = w :: x :: ws''
      rw [pySplitAux_append_word hchars, List.append_nil, pySplitAux_cons_space]
      rw [if_neg (by simpa using hne), List.reverse_reverse]
      have := ih (fun y hy => h y (List.mem_cons_of_mem _ hy))
      rw [show pySplitAux (joinSp (x :: ws'')) [] = pySplit (joinSp (x :: ws'')) from rfl]
      rw [this]

lemma joinSp_append (a b : List (List Char)) (ha : a ≠ []) (hb : b ≠ []) :
    joinSp (a ++ b) = joinSp a ++ ' ' :: joinSp b := by
  induction a with
  | nil => exact absurd rfl ha
  | cons w a' ih =>
    cases a' with
    | nil =>
      cases b with
      | nil => exact absurd rfl hb
      | cons x b' =>
        show joinSp (w :: x :: b') = joinSp [w] ++ ' ' :: joinSp (x :: b')
        rw [joinSp_cons_cons]
        rfl
    | cons y a'' =>
      show joinSp (w :: (y :: a'' ++ b)) = _
      rw [show (y : List Char) :: a'' ++ b = y :: (a'' ++ b) from rfl]
      rw [joinSp_cons_cons]
      have h1 : (y :: a'' ++ b : List (List Char)) = y :: (a'' ++ b) := rfl
      rw [h1] at ih
      rw [ih (by simp), joinSp_cons_cons w y a'']
      simp

lemma joinSp_eq_nil_iff (curg : List (List Char)) (h : ∀ w ∈ curg, wordOK w) :
    joinSp curg = [] ↔ curg = [] := by
  cases curg with
  | nil => exact ⟨fun _ => rfl, fun _ => rfl⟩
  | cons w t =>
    obtain ⟨hne, _⟩ := h w (by simp)
    cases t with
    | nil => simpa [joinSp] using hne
    | cons x t' =>
      rw [joinSp_cons_cons]
      constructor
      · intro hx
        exact absurd (List.append_eq_nil.mp hx).2 (by simp)
      · intro hx
        cases hx

lemma pyStripFront_wordlike {w : List Char} (hne : w ≠ [])
    (hchars : ∀ c ∈ w, isWS c = false) : pyStripFront w = w := by
  cases w with
  | nil => rfl
  | cons c t => exact pyStripFront_cons_of_not_ws (hchars c (by simp)) t

lemma pyStripBack_wordlike {w : List Char} (hchars : ∀ c ∈ w, isWS c = false) :
    pyStripBack w = w := by
  rcases List.eq_nil_or_concat w with rfl | ⟨t, c, rfl⟩
  · rfl
  · rw [List.concat_eq_append]
    refine pyStripBack_append_of_not_ws t (hchars c ?_)
    rw [List.concat_eq_append]
    simp

/-- `strip` of `"" + " " + w` is `w` for a split-produced word. -/
lemma pyStrip_space_word {w : List Char} (hw : wordOK w) : pyStrip (' ' :: w) = w := by
  obtain ⟨hne, hchars⟩ := hw
  rw [pyStrip, pyStripFront, List.dropWhile_cons, if_pos (by decide : isWS ' ' = true)]
  rw [show List.dropWhile isWS w = pyStripFront w from rfl]
  rw [pyStripFront_wordlike hne hchars, pyStripBack_wordlike hchars]

lemma joinSp_words_head {curg : List (List Char)} (hne : curg ≠ [])
    (h : ∀ w ∈ curg, wordOK w) :
    ∃ c t, joinSp curg = c :: t ∧ isWS c = false := by
  cases curg with
  | nil => exact absurd rfl hne
  | cons w rest =>
    obtain ⟨hwne, hwchars⟩ := h w (by simp)
    cases w with
    | nil => exact absurd rfl hwne
    | cons c w' =>
      cases rest with
      | nil => exact ⟨c, w', rfl, hwchars c (by simp)⟩
      | cons x rest' =>
        rw [joinSp_cons_cons]
        exact ⟨c, w' ++ ' ' :: joinSp (x :: rest'), rfl, hwchars c (by simp)⟩

/-- `strip` of `cur + " " + w` with nonempty `cur`: nothing is stripped. -/
lemma pyStrip_join_space_word {curg : List (List Char)} {w : List Char}
    (hne : curg ≠ []) (h : ∀ x ∈ curg, wordOK x) (hw : wordOK w) :
    pyStrip (joinSp curg ++ ' ' :: w) = joinSp (curg ++ [w]) := by
  obtain ⟨c, t, hct, hcws⟩ := joinSp_words_head hne h
  obtain ⟨hwne, hwchars⟩ := hw
  rcases List.eq_nil_or_concat w with rfl | ⟨mid, d, hmd⟩
  · exact absurd rfl hwne
  · rw [List.concat_eq_append] at hmd
    subst hmd
    have hd : isWS d = false := hwchars d (by simp)
    have hshape : joinSp curg ++ ' ' :: (mid ++ [d]) =
        c :: ((t ++ ' ' :: mid) ++ [d]) := by
      rw [hct]
      simp
    rw [hshape, pyStrip_eq_self hcws hd]
    rw [joinSp_append curg [mid ++ [d]] hne (by simp)]
    rw [← hshape]
    rfl

/-- The loop invariant: lines already emitted and the current line are space-joins
of groups of words, and the groups concatenate to the words consumed so far. -/
lemma wrapLoop_spec (measure : List Char → ℤ) (maxW : ℤ) (ws : List (List Char)) :
    ∀ (gs : List (List (List Char))) (curg : List (List Char)),
      (∀ w ∈ ws, wordOK w) →
      (∀ g ∈ gs, g ≠ [] ∧ ∀ w ∈ g, wordOK w) →
      (∀ w ∈ curg, wordOK w) →
      ∃ gs' : List (List (List Char)),
        wrapLoop measure maxW (gs.map joinSp) (joinSp curg) ws = gs'.map joinSp ∧
        (∀ g ∈ gs', g ≠ [] ∧ ∀ w ∈ g, wordOK w) ∧
        gs'.join = gs.join ++ curg ++ ws := by
  induction ws with
  | nil =>
    intro gs curg hws hgs hcurg
    by_cases hcur : curg = []
    · subst hcur
      rw [wrapLoop, if_pos (show joinSp ([] : List (List Char)) = [] from rfl)]
      exact ⟨gs, rfl, hgs, by simp⟩
    · rw [wrapLoop, if_neg (fun hx => hcur ((joinSp_eq_nil_iff curg hcurg).mp hx))]
      refine ⟨gs ++ [curg], by simp, ?_, by simp⟩
      intro g hg
      rcases List.mem_append.mp hg with hg' | hg'
      · exact hgs g hg'
      · rcases List.mem_singleton.mp hg' with rfl
        exact ⟨hcur, hcurg⟩
  | cons w ws' ih =>
    intro gs curg hws hgs hcurg
    have hw : wordOK w := hws w (by simp)
    have hws' : ∀ x ∈ ws', wordOK x := fun x hx => hws x (List.mem_cons_of_mem _ hx)
    by_cases hcur : curg = []
    · subst hcur
      have htest : pyStrip ((joinSp []) ++ ' ' :: w) = w := by
        rw [show joinSp [] ++ ' ' :: w = ' ' :: w from rfl]
        exact pyStrip_space_word hw
      have hone : ∀ c ∈ [w], wordOK c := by
        intro c hc
        rcases List.mem_singleton.mp hc with rfl
        exact hw
      rw [wrapLoop]
      split_ifs with hfit hnil
      · rw [htest]
        obtain ⟨gs', h1, h2, h3⟩ := ih gs [w] hws' hgs hone
        refine ⟨gs', ?_, h2, by simpa using h3⟩
        rw [← h1]
        rfl
      · obtain ⟨gs', h1, h2, h3⟩ := ih gs [w] hws' hgs hone
        refine ⟨gs', ?_, h2, by simpa using h3⟩
        rw [← h1]
        rfl
      · exact absurd rfl hnil
    · have htest : pyStrip (joinSp curg ++ ' ' :: w) = joinSp (curg ++ [w]) :=
        pyStrip_join_space_word hcur hcurg hw
      have hext : ∀ x ∈ curg ++ [w], wordOK x := by
        intro x hx
        rcases List.mem_append.mp hx with hx' | hx'
        · exact hcurg x hx'
        · rcases List.mem_singleton.mp hx' with rfl
          exact hw
      rw [wrapLoop]
      split_ifs with hfit hnil
      · rw [htest]
        obtain ⟨gs', h1, h2, h3⟩ := ih gs (curg ++ [w]) hws' hgs hext
        refine ⟨gs', h1, h2, ?_⟩
        rw [h3]
        simp
      · exact absurd ((joinSp_eq_nil_iff curg hcurg).mp hnil) hcur
      · have hgs2 : ∀ g ∈ gs ++ [curg], g ≠ [] ∧ ∀ x ∈ g, wordOK x := by
          intro g hg
          rcases List.mem_append.mp hg with hg' | hg'
          · exact hgs g hg'
          · rcases List.mem_singleton.mp hg' with rfl
            exact ⟨hcur, hcurg⟩
        have hone : ∀ c ∈ [w], wordOK c := by
          intro c hc
          rcases List.mem_singleton.mp hc with rfl
          exact hw
        obtain ⟨gs', h1, h2, h3⟩ := ih (gs ++ [curg]) [w] hws' hgs2 hone
        refine ⟨gs', ?_, h2, ?_⟩
        · rw [← h1]
          simp [joinSp]
        · rw [h3]
          simp

lemma joinSp_map_joinSp (gs : List (List (List Char))) (h : ∀ g ∈ gs, g ≠ []) :
    joinSp (gs.map joinSp) = joinSp gs.join := by
  induction gs with
  | nil => rfl
  | cons g gs' ih =>
    cases gs' with
    | nil =>
      show joinSp [joinSp g] = joinSp (g ++ [])
      rw [List.append_nil]
      rfl
    | cons g2 gs'' =>
      have hne : (g2 :: gs'').join ≠ [] := by
        rw [show (g2 :: gs'').join = g2 ++ gs''.join from rfl]
        intro hx
        exact h g2 (by simp) (List.append_eq_nil.mp hx).1
      have hih := ih (fun x hx => h x (List.mem_cons_of_mem _ hx))
      rw [List.map_cons] at hih
      rw [List.map_cons, List.map_cons, joinSp_cons_cons, hih]
      rw [show (g :: g2 :: gs'').join = g ++ (g2 :: gs'').join from rfl]
      rw [joinSp_append g ((g2 :: gs'').join) (h g (by simp)) hne]

lemma wrap_lines_groups (measure : List Char → ℤ) (maxW : ℤ) (text : List Char) :
    ∃ gs' : List (List (List Char)),
      wrap_lines measure maxW text = gs'.map joinSp ∧
      (∀ g ∈ gs', g ≠ [] ∧ ∀ w ∈ g, wordOK w) ∧
      gs'.join = pySplit text := by
  obtain ⟨gs', h1, h2, h3⟩ :=
    wrapLoop_spec measure maxW (pySplit text) [] []
      (pySplit_wordOK text) (by simp) (by simp)
  exact ⟨gs', h1, h2, by simpa using h3⟩

/-- Claim C5: with the text-measuring function an arbitrary width oracle and any
positive max width, joining the lines returned by `wrap_lines` with single
spaces and splitting on whitespace yields exactly the word sequence of the
original text, and every returned line is non-empty. -/
theorem wrap_lines_preserves_words (measure : List Char → ℤ) (maxW : ℤ)
    (hpos : 0 < maxW) (text : List Char) :
    pySplit (joinSp (wrap_lines measure maxW text)) = pySplit text ∧
    ∀ l ∈ wrap_lines measure maxW text, l ≠ [] := by
  obtain ⟨gs', h1, h2, h3⟩ := wrap_lines_groups measure maxW text
  constructor
  · rw [h1, joinSp_map_joinSp gs' (fun g hg => (h2 g hg).1)]
    have hwords : ∀ w ∈ gs'.join, wordOK w := by
      intro w hw
      obtain ⟨g, hg, hwg⟩ := List.mem_join.mp hw
      exact (h2 g hg).2 w hwg
    rw [pySplit_joinSp gs'.join hwords, h3]
  · intro l hl
    rw [h1] at hl
    obtain ⟨g, hg, rfl⟩ := List.mem_map.mp hl
    intro hnil
    exact (h2 g hg).1 ((joinSp_eq_nil_iff g (h2 g hg).2).mp hnil)

/-- Witness for C5: the width oracle is string length, max width 6, text
"hello world". -/
theorem wrap_lines_preserves_words_witness :
    (0 : ℤ) < 6 ∧
    (pySplit (joinSp (wrap_lines (fun s => (s.length : ℤ)) 6 "hello world".data)) =
        pySplit "hello world".data ∧
     ∀ l ∈ wrap_lines (fun s => (s.length : ℤ)) 6 "hello world".data, l ≠ []) :=
  ⟨by decide,
   wrap_lines_preserves_words (fun s => (s.length : ℤ)) 6 (by decide) "hello world".data⟩

/-! ### `make_caption.py`: hashtags, CTA lines and the caption -/

/-- `HASHTAGS_POOL` (lines 12-18). -/
def HASHTAGS_POOL : List (List Char) :=
  ["#bhagavadgita".data, "#krishna".data, "#krishnavani".data, "#gita".data,
   "#spirituality".data, "#dharma".data, "#motivation".data, "#hindiquotes".data,
   "#sanskrit".data, "#lifequotes".data, "#innerpeace".data, "#mindset".data,
   "#dailywisdom".data, "#quotes".data, "#inspiration".data, "#peace".data,
   "#bhakti".data, "#sanatan".data, "#india".data, "#meditation".data]

/-- `CTA_LINES` (lines 21-27). -/
def CTA_LINES : List (List Char) :=
  ["✨ Save this for later.".data,
   "💛 Share this with someone who needs it.".data,
   "🙏 Comment ‘ॐ’ if this touched your heart.".data,
   "📌 Follow @dailywisdomgita for daily Gita wisdom.".data,
   "🌼 Pause. Breathe. Reflect.".data]

/-- `random.sample(pool, n)` (library): the randomness enters as the `shuffled`
permutation of the pool, of which the first `n` elements are returned. -/
def sample (shuffled : List (List Char)) (n : ℕ) : List (List Char) :=
  shuffled.take n

/-- `pick_hashtags` (lines 44-46): `n = min(n, len(HASHTAGS_POOL))`, then
`random.sample(HASHTAGS_POOL, n)`. -/
def pick_hashtags (shuffled : List (List Char)) (n : ℕ) : List (List Char) :=
  sample shuffled (min n HASHTAGS_POOL.length)

/-- The f-string template of `build_caption` (lines 56-72), with `topic_line`
inlined and `tags` the already-joined hashtag string. -/
def captionTemplate (q : Rec) (cta : List Char) (tags : List Char) : List Char :=
  "🕉️ Bhagavad Gita Wisdom\n\n".data ++
  (if pyStrip (getValD q "topic") = [] then []
   else "🌿 ".data ++ pyStrip (getValD q "topic") ++ "\n\n".data) ++
  "📜 Sanskrit:\n".data ++ getValD q "sanskrit" ++
  "\n\n✨ English:\n".data ++ getValD q "english" ++
  "\n\n🌼 Hindi:\n".data ++ getValD q "hindi" ++
  "\n\n📌 Reference: Bhagavad Gita ".data ++ getValD q "reference" ++
  "\n\n".data ++ cta ++ "\n\n".data ++ tags ++ "\n".data

/-- `build_caption` (lines 49-73): the template, `strip`ped, plus one `"\n"`. -/
def build_caption (q : Rec) (cta : List Char) (shuffled : List (List Char)) :
    List Char :=
  pyStrip (captionTemplate q cta (joinSp (pick_hashtags shuffled 5))) ++ "\n".data

lemma hashtags_pool_facts :
    HASHTAGS_POOL.length = 20 ∧ HASHTAGS_POOL.Nodup ∧
      ∀ t ∈ HASHTAGS_POOL, t ≠ [] ∧ ∀ c ∈ t, isWS c = false := by decide

lemma pick_hashtags_mem_pool (shuffled : List (List Char))
    (hs : shuffled.Perm HASHTAGS_POOL) (n : ℕ) :
    ∀ t ∈ pick_hashtags shuffled n, t ∈ HASHTAGS_POOL := fun t ht =>
  hs.mem_iff.mp ((List.take_sublist _ _).subset ht)

lemma pick_hashtags_wordOK (shuffled : List (List Char))
    (hs : shuffled.Perm HASHTAGS_POOL) (n : ℕ) :
    ∀ w ∈ pick_hashtags shuffled n, wordOK w := fun w hw =>
  hashtags_pool_facts.2.2 w (pick_hashtags_mem_pool shuffled hs n w hw)

lemma pick_hashtags_length (shuffled : List (List Char))
    (hs : shuffled.Perm HASHTAGS_POOL) (n : ℕ) :
    (pick_hashtags shuffled n).length = min n 20 := by
  rw [pick_hashtags, sample, List.length_take, hs.length_eq]
  rw [show HASHTAGS_POOL.length = 20 from rfl]
  omega

lemma pick_hashtags_nodup (shuffled : List (List Char))
    (hs : shuffled.Perm HASHTAGS_POOL) (n : ℕ) :
    (pick_hashtags shuffled n).Nodup :=
  (List.take_sublist _ _).nodup (hs.nodup_iff.mpr hashtags_pool_facts.2.1)

lemma joinSp_last_not_ws (T : List (List Char)) (hne : T ≠ [])
    (h : ∀ w ∈ T, wordOK w) :
    ∃ y c, joinSp T = y ++ [c] ∧ isWS c = false := by
  induction T with
  | nil => exact absurd rfl hne
  | cons w T' ih =>
    cases T' with
    | nil =>
      obtain ⟨hwne, hwch⟩ := h w (by simp)
      rcases List.eq_nil_or_concat w with rfl | ⟨mid, d, hmd⟩
      · exact absurd rfl hwne
      · rw [List.concat_eq_append] at hmd
        refine ⟨mid, d, hmd, hwch d ?_⟩
        rw [hmd]
        simp
    | cons x T'' =>
      obtain ⟨y, c, hyc, hcws⟩ :=
        ih (by simp) (fun v hv => h v (List.mem_cons_of_mem _ hv))
      rw [joinSp_cons_cons, hyc]
      exact ⟨w ++ ' ' :: y, c, by simp, hcws⟩

/-- A template whose prefix starts with a non-whitespace character and whose
tail before the final newline ends with a non-whitespace character passes
through `strip() + "\n"` unchanged. -/
lemma pyStrip_template {pre tags : List Char} {a : Char}
    (hhead : pre.head? = some a) (ha : isWS a = false)
    {y : List Char} {c : Char} (htags : tags = y ++ [c]) (hc : isWS c = false) :
    pyStrip (pre ++ tags ++ "\n".data) ++ "\n".data = pre ++ tags ++ "\n".data := by
  subst htags
  cases pre with
  | nil => cases hhead
  | cons p pt =>
    rw [List.head?_cons] at hhead
    have hpa : p = a := by injection hhead
    have hp : isWS p = false := by rw [hpa]; exact ha
    have hfront : pyStripFront (((p :: pt) ++ (y ++ [c])) ++ "\n".data) =
        ((p :: pt) ++ (y ++ [c])) ++ "\n".data := by
      rw [List.cons_append, List.cons_append]
      exact pyStripFront_cons_of_not_ws hp _
    rw [pyStrip, hfront]
    have hre : ((p :: pt) ++ (y ++ [c])) ++ "\n".data =
        (((p :: pt) ++ y) ++ [c]) ++ ['\n'] := by simp
    rw [hre, pyStripBack_append_ws _ (by decide : isWS '\n' = true),
      pyStripBack_append_of_not_ws _ hc]

/-- `build_caption` reproduces the template verbatim: the `strip` removes
exactly the template's final newline, which `+ "\n"` puts back. -/
lemma build_caption_eq (q : Rec) (cta : List Char) (shuffled : List (List Char))
    (hs : shuffled.Perm HASHTAGS_POOL) :
    build_caption q cta shuffled =
      captionTemplate q cta (joinSp (pick_hashtags shuffled 5)) := by
  have hTne : pick_hashtags shuffled 5 ≠ [] := by
    have hl := pick_hashtags_length shuffled hs 5
    intro hx
    rw [hx] at hl
    norm_num at hl
  obtain ⟨y, c, hyc, hc⟩ :=
    joinSp_last_not_ws _ hTne (pick_hashtags_wordOK shuffled hs 5)
  show pyStrip (captionTemplate q cta (joinSp (pick_hashtags shuffled 5))) ++
      "\n".data = _
  rw [captionTemplate]
  exact pyStrip_template rfl (by decide) hyc hc

/-- Claim C7: the pool has 20 hashtags; `pick_hashtags(n)` returns `min n 20`
pairwise-distinct pool elements for every `n`; and the caption ends with the
space-join of 5 pairwise-distinct pool hashtags followed by the final newline. -/
theorem caption_hashtags_randomized (q : Rec) (cta : List Char)
    (shuffled : List (List Char)) (hs : shuffled.Perm HASHTAGS_POOL) :
    HASHTAGS_POOL.length = 20 ∧
    (∀ n : ℕ, (pick_hashtags shuffled n).length = min n 20 ∧
      (pick_hashtags shuffled n).Nodup ∧
      ∀ t ∈ pick_hashtags shuffled n, t ∈ HASHTAGS_POOL) ∧
    ∃ tags : List (List Char), tags.length = 5 ∧ tags.Nodup ∧
      (∀ t ∈ tags, t ∈ HASHTAGS_POOL) ∧
      ∃ p : List Char, build_caption q cta shuffled = p ++ joinSp tags ++ "\n".data := by
  refine ⟨rfl, fun n => ⟨pick_hashtags_length shuffled hs n,
    pick_hashtags_nodup shuffled hs n, pick_hashtags_mem_pool shuffled hs n⟩,
    pick_hashtags shuffled 5, pick_hashtags_length shuffled hs 5,
    pick_hashtags_nodup shuffled hs 5, pick_hashtags_mem_pool shuffled hs 5,
    ?_⟩
  rw [build_caption_eq q cta shuffled hs, captionTemplate]
  exact ⟨_, rfl⟩

/-- Witness for C7 at the identity shuffle, an empty record and an empty CTA. -/
theorem caption_hashtags_randomized_witness :
    HASHTAGS_POOL.Perm HASHTAGS_POOL ∧
    (HASHTAGS_POOL.length = 20 ∧
     (∀ n : ℕ, (pick_hashtags HASHTAGS_POOL n).length = min n 20 ∧
       (pick_hashtags HASHTAGS_POOL n).Nodup ∧
       ∀ t ∈ pick_hashtags HASHTAGS_POOL n, t ∈ HASHTAGS_POOL) ∧
     ∃ tags : List (List Char), tags.length = 5 ∧ tags.Nodup ∧
       (∀ t ∈ tags, t ∈ HASHTAGS_POOL) ∧
       ∃ p : List Char, build_caption [] [] HASHTAGS_POOL =
         p ++ joinSp tags ++ "\n".data) :=
  ⟨List.Perm.refl _,
   caption_hashtags_randomized [] [] HASHTAGS_POOL (List.Perm.refl _)⟩

lemma caption_trailing_body (pre y : List Char) (c : Char) (hc : isWS c = false) :
    ∃ body, pre ++ (y ++ [c]) ++ "\n".data = body ++ "\n".data ∧
      body ≠ [] ∧ body.getLast? ≠ some '\n' := by
  refine ⟨(pre ++ y) ++ [c], by simp, by simp, ?_⟩
  rw [List.getLast?_concat]
  intro hsome
  injection hsome with hcn
  rw [hcn] at hc
  exact absurd hc (by decide)

/-- Claim C10: the caption begins with the header line, topic line present
exactly when the stripped topic is non-blank, Sanskrit/English/Hindi/reference
sections in order, and exactly one trailing newline. -/
theorem build_caption_shape (q : Rec) (cta : List Char)
    (shuffled : List (List Char)) (hs : shuffled.Perm HASHTAGS_POOL) :
    (∃ rest, build_caption q cta shuffled =
        "🕉️ Bhagavad Gita Wisdom\n".data ++ rest) ∧
    build_caption q cta shuffled =
      "🕉️ Bhagavad Gita Wisdom\n\n".data ++
      (if pyStrip (getValD q "topic") = [] then []
       else "🌿 ".data ++ pyStrip (getValD q "topic") ++ "\n\n".data) ++
      "📜 Sanskrit:\n".data ++ getValD q "sanskrit" ++
      "\n\n✨ English:\n".data ++ getValD q "english" ++
      "\n\n🌼 Hindi:\n".data ++ getValD q "hindi" ++
      "\n\n📌 Reference: Bhagavad Gita ".data ++ getValD q "reference" ++
      "\n\n".data ++ cta ++ "\n\n".data ++
      joinSp (pick_hashtags shuffled 5) ++ "\n".data ∧
    (pyStrip (getValD q "topic") ≠ [] →
      ∃ p r, build_caption q cta shuffled =
        p ++ "🌿 ".data ++ pyStrip (getValD q "topic") ++ "\n\n".data ++ r) ∧
    ∃ body, build_caption q cta shuffled = body ++ "\n".data ∧
      body ≠ [] ∧ body.getLast? ≠ some '\n' := by
  have heq := build_caption_eq q cta shuffled hs
  have hTne : pick_hashtags shuffled 5 ≠ [] := by
    have hl := pick_hashtags_length shuffled hs 5
    intro hx
    rw [hx] at hl
    norm_num at hl
  obtain ⟨y, c, hyc, hc⟩ :=
    joinSp_last_not_ws _ hTne (pick_hashtags_wordOK shuffled hs 5)
  refine ⟨?_, ?_, ?_, ?_⟩
  · rw [heq, captionTemplate]
    simp only [List.append_assoc]
    exact ⟨_, rfl⟩
  · rw [heq, captionTemplate]
  · intro ht
    rw [heq, captionTemplate, if_neg ht]
    refine ⟨"🕉️ Bhagavad Gita Wisdom\n\n".data,
      "📜 Sanskrit:\n".data ++ getValD q "sanskrit" ++
      "\n\n✨ English:\n".data ++ getValD q "english" ++
      "\n\n🌼 Hindi:\n".data ++ getValD q "hindi" ++
      "\n\n📌 Reference: Bhagavad Gita ".data ++ getValD q "reference" ++
      "\n\n".data ++ cta ++ "\n\n".data ++
      joinSp (pick_hashtags shuffled 5) ++ "\n".data, ?_⟩
    simp [List.append_assoc]
  · rw [heq, captionTemplate, hyc]
    exact caption_trailing_body _ y c hc

/-- Witness for C10 at the identity shuffle, an empty record and an empty CTA. -/
theorem build_caption_shape_witness :
    HASHTAGS_POOL.Perm HASHTAGS_POOL ∧
    ((∃ rest, build_caption [] [] HASHTAGS_POOL =
        "🕉️ Bhagavad Gita Wisdom\n".data ++ rest) ∧
     build_caption [] [] HASHTAGS_POOL =
       "🕉️ Bhagavad Gita Wisdom\n\n".data ++
       (if pyStrip (getValD [] "topic") = [] then []
        else "🌿 ".data ++ pyStrip (getValD [] "topic") ++ "\n\n".data) ++
       "📜 Sanskrit:\n".data ++ getValD [] "sanskrit" ++
       "\n\n✨ English:\n".data ++ getValD [] "english" ++
       "\n\n🌼 Hindi:\n".data ++ getValD [] "hindi" ++
       "\n\n📌 Reference: Bhagavad Gita ".data ++ getValD [] "reference" ++
       "\n\n".data ++ [] ++ "\n\n".data ++
       joinSp (pick_hashtags HASHTAGS_POOL 5) ++ "\n".data ∧
     (pyStrip (getValD [] "topic") ≠ [] →
       ∃ p r, build_caption [] [] HASHTAGS_POOL =
         p ++ "🌿 ".data ++ pyStrip (getValD [] "topic") ++ "\n\n".data ++ r) ∧
     ∃ body, build_caption [] [] HASHTAGS_POOL = body ++ "\n".data ∧
       body ≠ [] ∧ body.getLast? ≠ some '\n') :=
  ⟨List.Perm.refl _, build_caption_shape [] [] HASHTAGS_POOL (List.Perm.refl _)⟩

/-! ### Background music and the reel `main`s (claim C3) -/

/-- The `Music1.mp3` .. `Music10.mp3` names probed by `pick_music_file`. -/
def preferredNames : List (List Char) :=
  ["Music1.mp3".data, "Music2.mp3".data, "Music3.mp3".data, "Music4.mp3".data,
   "Music5.mp3".data, "Music6.mp3".data, "Music7.mp3".data, "Music8.mp3".data,
   "Music9.mp3".data, "Music10.mp3".data]

/-- The state of `assets/music`: whether the folder exists and which `.mp3`
files it holds (`MUSIC_DIR.glob("*.mp3")` is the library). -/
structure MusicFS where
  dirExists : Bool
  files : List (List Char)

/-- `pick_music_file` (lines 154-170); `choose` stands for `random.choice`. -/
def pick_music_file (fs : MusicFS) (choose : List (List Char) → List Char) :
    Except PyError (List Char) :=
  if fs.dirExists = false then .error .fileNotFound
  else if preferredNames.filter (fun n => fs.files.contains n) ≠ [] then
    .ok (choose (preferredNames.filter (fun n => fs.files.contains n)))
  else if fs.files = [] then .error .fileNotFound
  else .ok (choose fs.files)

/-- `build_audio` (lines 173-185): the audio clip comes from the chosen music
file (clipping, looping, fades and volume are the moviepy library), so it
fails exactly when `pick_music_file` does. -/
def build_audio (fs : MusicFS) (choose : List (List Char) → List Char) :
    Except PyError (List Char) :=
  pick_music_file fs choose

/-- The inputs the reel `main`s read. -/
structure ReelInputs where
  quoteFile : Option Rec
  fontsExist : Bool
  bgImage : Option (ℕ × ℕ)
  music : MusicFS

/-- A produced video: duration, frame rate, and audio track (`none` when the
clip is written with `audio=False`). -/
structure Reel where
  durationSec : ℕ
  fps : ℕ
  audio : Option (List Char)

/-- `load_quote` of the reel scripts (lines 29-30): a bare `read_text`, which
raises `FileNotFoundError` when `today_quote.json` is absent. -/
def reel_load_quote (file : Option Rec) : Except PyError Rec :=
  match file with
  | none => .error .fileNotFound
  | some q => .ok q

/-- `font` (lines 33-36): raises `FileNotFoundError` when the font is absent. -/
def loadFont (fontsExist : Bool) : Except PyError Unit :=
  if fontsExist then .ok () else .error .fileNotFound

/-- `main` of `make_reel_github_linux.py` (lines 188-251): quote, fonts,
background, then `clip.set_audio(build_audio())` and `write_videofile`. -/
def make_reel_github_main (inp : ReelInputs)
    (choose : List (List Char) → List Char) : Except PyError Reel := do
  let _q ← reel_load_quote inp.quoteFile
  let _f ← loadFont inp.fontsExist
  let _bg ← load_background inp.bgImage
  let music ← build_audio inp.music choose
  .ok { durationSec := DURATION, fps := FPS, audio := some music }

/-- `main` of `make_reel copy.py` (lines 126-193): same reads, no audio at all
(`write_videofile(..., audio=False, ...)`), and it never touches music. -/
def make_reel_copy_main (inp : ReelInputs) : Except PyError Reel := do
  let _q ← reel_load_quote inp.quoteFile
  let _f ← loadFont inp.fontsExist
  let _bg ← load_background inp.bgImage
  .ok { durationSec := DURATION, fps := FPS, audio := none }

/-- Inputs where everything exists except that the music folder holds no file. -/
def noMusicInputs : ReelInputs :=
  { quoteFile := some [], fontsExist := true, bgImage := some (1080, 1920),
    music := { dirExists := true, files := [] } }

/-- Counterexample to claim C3 as stated: with every other input present but no
background-music `.mp3` files, `main` of `make_reel_github_linux.py` raises
`FileNotFoundError` instead of completing and producing the video. -/
theorem reel_requires_music_counterexample :
    make_reel_github_main noMusicInputs (fun l => l.headD []) =
      .error .fileNotFound := rfl

/-- Claim C3 amended: in `make_reel_github_linux.py` background music is
required — with no `.mp3` files present its `main` raises and produces no
video; only `make_reel copy.py` produces the video without an audio track,
which it does unconditionally (it never reads the music folder). -/
theorem music_not_optional (inp : ReelInputs)
    (choose : List (List Char) → List Char) :
    (inp.music.files = [] → ∃ e, make_reel_github_main inp choose = .error e) ∧
    (∀ q wh, inp.quoteFile = some q → inp.fontsExist = true →
      inp.bgImage = some wh →
      make_reel_copy_main inp = .ok { durationSec := 12, fps := 30, audio := none }) := by
  obtain ⟨qf, fe, bg, de, files⟩ := inp
  constructor
  · intro hfiles
    have hf2 : files = [] := hfiles
    subst hf2
    cases qf with
    | none => exact ⟨.fileNotFound, rfl⟩
    | some q =>
      cases fe with
      | false => exact ⟨.fileNotFound, rfl⟩
      | true =>
        cases bg with
        | none => exact ⟨.fileNotFound, rfl⟩
        | some wh =>
          cases de with
          | false => exact ⟨.fileNotFound, rfl⟩
          | true => exact ⟨.fileNotFound, rfl⟩
  · intro q wh hq hf hbg
    have hq2 : qf = some q := hq
    have hf2 : fe = true := hf
    have hbg2 : bg = some wh := hbg
    subst hq2 hf2 hbg2
    rfl

end GitaReels
